import Mathlib

/-!
# Verification of the intmax-zkp-core gadget layer

Shallow embedding of the circuit-gadget layer of `intmax-zkp-core`:

* `src/merkle_tree/gadgets/mod.rs` — Merkle-path root computation and
  leaf-list root aggregation;
* `src/transaction/circuits/mod.rs` — the Merge-and-Purge public-input
  wire format (`encode` / `parse_merge_and_purge_public_inputs`);
* `src/rollup/address_list.rs` — `make_address_list`;
* `src/rollup/gadgets/proposal_block/mod.rs` — the constraints generated
  by `verify_valid_proposal_block` and the witness-assignment order of
  `ProposalBlockProofTarget::set_witness`.

Circuit code is embedded denotationally: a circuit wire of digest type
becomes a value of `HashOut F`, a constraint-generating builder call
becomes a `Bool`-valued check over those values, and "satisfying
assignment" becomes the conjunction of those checks evaluating to
`true`.  The Poseidon two-to-one compression is an abstract parameter
`hash : HashOut F → HashOut F → HashOut F`, as the hash primitive is an
external collaborator of this layer.  Helpers of this repository that
live outside the four embedded files (`enforce_equal_if_enabled`,
`logical_or`, `conditionally_reverse`, `get_process_merkle_proof_role`,
the sparse-Merkle process-proof gadget, the off-circuit
`get_merkle_root`, `SmtProcessProof::with_root`) are modelled from the
specification and carry a doc comment saying so.
-/

namespace IntmaxZkpCore

/-- 4-field-element digest, mirroring plonky2's `HashOut { elements: [F; 4] }`
(the spec's "Digest": ordered tuple of 4 field elements, compared by
structural equality). -/
structure HashOut (F : Type) where
  e0 : F
  e1 : F
  e2 : F
  e3 : F
deriving DecidableEq

/-- The elements of a digest in order, as a list (mirrors `.elements` slices
used by `encode`). -/
def HashOut.toList {F : Type} (h : HashOut F) : List F :=
  [h.e0, h.e1, h.e2, h.e3]

/-- The all-zero digest: `default_hash` in `verify_valid_proposal_block`
(`HashOutTarget { elements: [zero; 4] }`), the spec's canonical
"empty"/default value. -/
def default_hash (F : Type) [Zero F] : HashOut F :=
  ⟨0, 0, 0, 0⟩

/-- An account address is a digest (`Address(pub HashOut<F>)` in
`zkdsa::account`). -/
abbrev Address (F : Type) := HashOut F

/-- Role tag of a sparse-Merkle process proof (spec §3:
`role: {NoOp, Insert, Update, Remove}`). In the source the role is the
two-field-element `fnc` encoding decoded by `get_process_merkle_proof_role`. -/
inductive ProcessRole where
  | NoOp
  | Insert
  | Update
  | Remove
deriving DecidableEq

/-- The role booleans decoded in-circuit from a process proof's `fnc`
wires (`ProcessMerkleProofRoleTarget` in
`sparse_merkle_tree/gadgets/process/utils.rs`). -/
structure ProcessMerkleProofRoleTarget where
  is_no_op : Bool
  is_insert_op : Bool
  is_update_op : Bool
  is_remove_op : Bool
  is_not_no_op : Bool
deriving DecidableEq

/-- Modelled from the spec: `get_process_merkle_proof_role`
(`sparse_merkle_tree/gadgets/process/utils.rs`, not under `src/`) decodes
the `fnc` wires of a process proof into one indicator boolean per role of
§3's role set `{NoOp, Insert, Update, Remove}`, plus the negation of the
no-op indicator. -/
def get_process_merkle_proof_role (fnc : ProcessRole) : ProcessMerkleProofRoleTarget where
  is_no_op := fnc = ProcessRole.NoOp
  is_insert_op := fnc = ProcessRole.Insert
  is_update_op := fnc = ProcessRole.Update
  is_remove_op := fnc = ProcessRole.Remove
  is_not_no_op := fnc ≠ ProcessRole.NoOp

/-- Modelled from the spec: `enforce_equal_if_enabled`
(`sparse_merkle_tree/gadgets/common.rs`, not under `src/`) constrains two
digest wires to be equal whenever the condition boolean is true ("for
each slot whose role is not NoOp, assert its `old_root` equals the
running world-state root"; a false condition imposes nothing). -/
def enforce_equal_if_enabled {F : Type} [DecidableEq F]
    (a b : HashOut F) (enabled : Bool) : Bool :=
  !enabled || decide (a = b)

/-- Modelled from the spec: `logical_or`
(`sparse_merkle_tree/gadgets/common.rs`, not under `src/`) is boolean
disjunction of two boolean wires. -/
def logical_or (a b : Bool) : Bool :=
  a || b

/-- Modelled from the spec: `conditionally_reverse`
(`sparse_merkle_tree/gadgets/common.rs`, not under `src/`) swaps the two
digests when the bit is set ("conditionally swapping (current, sibling)
based on the corresponding index bit (bit=1 ⇒ current is the right
child)"). Returns `(left, right)`. -/
def conditionally_reverse {F : Type} (a b : HashOut F) (bit : Bool) :
    HashOut F × HashOut F :=
  if bit then (b, a) else (a, b)

/-- `builder.split_le(index_t, n)`: the `n` least-significant bits of the
index value, least-significant-bit first, as produced by the satisfied
range-check decomposition. -/
def split_le (x : Nat) (n : Nat) : List Bool :=
  (List.range n).map x.testBit

section MerkleGadgets

variable {F : Type}

/-- Denotation of `get_merkle_root_target`
(`src/merkle_tree/gadgets/mod.rs:73`): starting from the leaf value,
zip the siblings with the little-endian index bits and at each level
conditionally reverse (current, sibling) by the bit, then compress the
ordered pair with the two-to-one hash. -/
def get_merkle_root_target (hash : HashOut F → HashOut F → HashOut F)
    (index : Nat) (value : HashOut F) (siblings : List (HashOut F)) :
    HashOut F :=
  (siblings.zip (split_le index siblings.length)).foldl
    (fun root sb =>
      let lr := conditionally_reverse root sb.1 sb.2
      hash lr.1 lr.2)
    value

/-- Modelled from the spec: the off-circuit `get_merkle_root`
(`src/merkle_tree/tree.rs`, not under `src/` here) "computes the same
quantity directly": at each level from leaf to root, if the
corresponding index bit is 1 the current digest is the right child of
the compression, otherwise the left, consuming the index bits least
significant first. -/
def get_merkle_root (hash : HashOut F → HashOut F → HashOut F) :
    Nat → HashOut F → List (HashOut F) → HashOut F
  | _, value, [] => value
  | index, value, s :: rest =>
      get_merkle_root hash (index / 2)
        (if index % 2 = 1 then hash s value else hash value s) rest

/-- `MerkleProofTarget::set_witness` (`src/merkle_tree/gadgets/mod.rs:48`)
assigns `index`, `value` and the siblings to the proof wires and returns
the off-circuit `get_merkle_root(index, value, siblings)`. -/
def MerkleProofTarget.set_witness (hash : HashOut F → HashOut F → HashOut F)
    (index : Nat) (value : HashOut F) (siblings : List (HashOut F)) :
    HashOut F :=
  get_merkle_root hash index value siblings

/-- One pairwise-compression pass over an (even-length) layer: the
`(0..layer.len()/2).map(|i| hash(layer[2i], layer[2i+1]))` step of
`get_merkle_root_target_from_leaves`. -/
def pair_hash_layer (hash : HashOut F → HashOut F → HashOut F) :
    List (HashOut F) → List (HashOut F)
  | x :: y :: rest => hash x y :: pair_hash_layer hash rest
  | _ => []

theorem pair_hash_layer_length (hash : HashOut F → HashOut F → HashOut F) :
    ∀ l : List (HashOut F), (pair_hash_layer hash l).length = l.length / 2
  | [] => by simp [pair_hash_layer]
  | [_] => by simp [pair_hash_layer]
  | _ :: _ :: rest => by
      simp [pair_hash_layer, pair_hash_layer_length hash rest]
      omega

/-- Denotation of `get_merkle_root_target_from_leaves`
(`src/merkle_tree/gadgets/mod.rs:93`): repeatedly duplicate the last
entry when the current layer has odd length, then compress pairwise,
until one digest remains.  `none` models the `assert_ne!(layer.len(), 0)`
panic on an empty leaf list. -/
def get_merkle_root_target_from_leaves
    (hash : HashOut F → HashOut F → HashOut F) :
    List (HashOut F) → Option (HashOut F)
  | [] => none
  | [x] => some x
  | x :: y :: rest =>
      get_merkle_root_target_from_leaves hash
        (pair_hash_layer hash
          (if (x :: y :: rest).length % 2 = 1
            then (x :: y :: rest) ++ [(x :: y :: rest).getLast (List.cons_ne_nil x (y :: rest))]
            else (x :: y :: rest)))
  termination_by l => l.length
  decreasing_by
    simp [pair_hash_layer_length]
    split
    all_goals simp
    all_goals omega

end MerkleGadgets

section PublicInputs

variable {F : Type}

/-- The Merge-and-Purge public-input record
(`MergeAndPurgeTransitionPublicInputs` in
`src/transaction/circuits/mod.rs:245`). -/
structure MergeAndPurgeTransitionPublicInputs (F : Type) where
  sender_address : Address F
  old_user_asset_root : HashOut F
  middle_user_asset_root : HashOut F
  new_user_asset_root : HashOut F
  diff_root : HashOut F
  tx_hash : HashOut F
deriving DecidableEq

/-- `MergeAndPurgeTransitionPublicInputs::encode`
(`src/transaction/circuits/mod.rs:255`): the 24 public-input field
elements, appending `old_user_asset_root`, `middle_user_asset_root`,
`new_user_asset_root`, `diff_root`, `sender_address`, `tx_hash` in that
order. -/
def MergeAndPurgeTransitionPublicInputs.encode
    (pi : MergeAndPurgeTransitionPublicInputs F) : List F :=
  pi.old_user_asset_root.toList ++
    pi.middle_user_asset_root.toList ++
    pi.new_user_asset_root.toList ++
    pi.diff_root.toList ++
    pi.sender_address.toList ++
    pi.tx_hash.toList

/-- `parse_merge_and_purge_public_inputs`
(`src/transaction/circuits/mod.rs:340`): read the record back from the
raw public-input slots by the fixed ranges `[0..4)` old, `[4..8)`
middle, `[8..12)` new, `[12..16)` diff, `[16..20)` sender, `[20..24)`
tx-hash; the source's slice indexing requires at least 24 entries. -/
def parse_merge_and_purge_public_inputs (v : List F) (h : 24 ≤ v.length) :
    MergeAndPurgeTransitionPublicInputs F where
  old_user_asset_root :=
    ⟨v.get ⟨0, by omega⟩, v.get ⟨1, by omega⟩, v.get ⟨2, by omega⟩,
      v.get ⟨3, by omega⟩⟩
  middle_user_asset_root :=
    ⟨v.get ⟨4, by omega⟩, v.get ⟨5, by omega⟩, v.get ⟨6, by omega⟩,
      v.get ⟨7, by omega⟩⟩
  new_user_asset_root :=
    ⟨v.get ⟨8, by omega⟩, v.get ⟨9, by omega⟩, v.get ⟨10, by omega⟩,
      v.get ⟨11, by omega⟩⟩
  diff_root :=
    ⟨v.get ⟨12, by omega⟩, v.get ⟨13, by omega⟩, v.get ⟨14, by omega⟩,
      v.get ⟨15, by omega⟩⟩
  sender_address :=
    ⟨v.get ⟨16, by omega⟩, v.get ⟨17, by omega⟩, v.get ⟨18, by omega⟩,
      v.get ⟨19, by omega⟩⟩
  tx_hash :=
    ⟨v.get ⟨20, by omega⟩, v.get ⟨21, by omega⟩, v.get ⟨22, by omega⟩,
      v.get ⟨23, by omega⟩⟩

theorem encode_length (pi : MergeAndPurgeTransitionPublicInputs F) :
    pi.encode.length = 24 := by
  simp [MergeAndPurgeTransitionPublicInputs.encode, HashOut.toList]

end PublicInputs

section ProposalBlock

variable {F : Type}

/-- The value fields of one sparse-Merkle process proof, as read by
`verify_valid_proposal_block` from a `SparseMerkleProcessProofTarget`
slot (and as carried by the off-circuit `SmtProcessProof` record of
spec §3: `{ old_root, new_root, old_value, new_value, role }`). -/
structure SmtProcessProof (F : Type) where
  fnc : ProcessRole
  old_root : HashOut F
  new_root : HashOut F
  old_value : HashOut F
  new_value : HashOut F
deriving DecidableEq

/-- Modelled from the spec: `SmtProcessProof::with_root`
(`sparse_merkle_tree/proof.rs`, not under `src/`) builds the padding
proof: "process-proof padding reuses a NoOp proof rooted at the last
genuine `new_root`" — a no-op transition whose old and new roots are the
given root and whose values are the empty digest. -/
def SmtProcessProof.with_root [Zero F] (root : HashOut F) : SmtProcessProof F :=
  ⟨ProcessRole.NoOp, root, root, default_hash F, default_hash F⟩

/-- Modelled from the spec: the constraint added by
`SparseMerkleProcessProofTarget::add_virtual_to`
(`sparse_merkle_tree/gadgets/process/process_smt.rs`, not under `src/`)
tying a process proof's role to its values, per spec §3: "role is
derivable from whether old/new value are zero/non-zero/unchanged; NoOp
requires old_root == new_root and old_value == new_value" — NoOp keeps
root and value unchanged, Insert goes empty → non-empty, Update
non-empty → non-empty, Remove non-empty → empty. -/
def smt_process_proof_valid [DecidableEq F] [Zero F] (p : SmtProcessProof F) : Bool :=
  match p.fnc with
  | ProcessRole.NoOp =>
      decide (p.old_root = p.new_root) && decide (p.old_value = p.new_value)
  | ProcessRole.Insert =>
      decide (p.old_value = default_hash F) && !decide (p.new_value = default_hash F)
  | ProcessRole.Update =>
      !decide (p.old_value = default_hash F) && !decide (p.new_value = default_hash F)
  | ProcessRole.Remove =>
      !decide (p.old_value = default_hash F) && decide (p.new_value = default_hash F)

/-- The value fields of one `RecursiveProofTarget` slot as read by
`verify_valid_proposal_block`: the inner proof's raw public-input wires
(at least the 24 slots parsed by range) and the `enabled` boolean. -/
structure UserTxAssignment (F : Type) where
  public_inputs : List F
  pub_len : 24 ≤ public_inputs.length
  enabled : Bool

/-- The root-chaining constraints of `verify_valid_proposal_block`
(`src/rollup/gadgets/proposal_block/mod.rs:163`): walk the process
proofs with a running root, at each proof requiring
`enforce_equal_if_enabled(old_root, running, is_not_no_op)` and then
advancing the running root to `new_root`. -/
def chaining_constraints [DecidableEq F] :
    HashOut F → List (SmtProcessProof F) → Bool
  | _, [] => true
  | running, p :: rest =>
      enforce_equal_if_enabled p.old_root running
          (get_process_merkle_proof_role p.fnc).is_not_no_op &&
        chaining_constraints p.new_root rest

/-- The `new_world_state_root` output wire of
`verify_valid_proposal_block`: the running root after processing every
slot (`new_world_state_root = proof.new_root` at each iteration). -/
def proposal_new_world_state_root (old_root : HashOut F)
    (proofs : List (SmtProcessProof F)) : HashOut F :=
  proofs.foldl (fun _ p => p.new_root) old_root

/-- The per-slot consistency constraints of
`verify_valid_proposal_block`
(`src/rollup/gadgets/proposal_block/mod.rs:178`) for one
`(process proof, user transaction)` pair: the no-op-or-enabled
requirement, the old-value match when enabled, the unconditional
insert rejection, and the role-gated new-value requirements (all
against the transaction's parsed public inputs, whose
`middle_user_asset_root` the source names `old_user_asset_root`). -/
def slot_constraints [DecidableEq F] [Zero F]
    (w : SmtProcessProof F) (u : UserTxAssignment F) : Bool :=
  let public_inputs := parse_merge_and_purge_public_inputs u.public_inputs u.pub_len
  let old_user_asset_root := public_inputs.middle_user_asset_root
  let new_user_asset_root := public_inputs.new_user_asset_root
  let fnc := get_process_merkle_proof_role w.fnc
  let is_no_op_or_enabled := logical_or fnc.is_no_op u.enabled
  (is_no_op_or_enabled == true) &&
    enforce_equal_if_enabled old_user_asset_root w.old_value u.enabled &&
    (fnc.is_insert_op == false) &&
    enforce_equal_if_enabled new_user_asset_root w.new_value
      (fnc.is_update_op && u.enabled) &&
    enforce_equal_if_enabled new_user_asset_root (default_hash F)
      (fnc.is_remove_op && u.enabled) &&
    enforce_equal_if_enabled new_user_asset_root old_user_asset_root
      (fnc.is_no_op && u.enabled)

/-- All constraints generated by `verify_valid_proposal_block`
(`src/rollup/gadgets/proposal_block/mod.rs:145`): the root-chaining
constraints, the structural equal-length requirement of `zip_eq`
(both slot arrays have `N_TXS` entries in the built circuit), and the
per-slot consistency constraints. -/
def verify_valid_proposal_block [DecidableEq F] [Zero F]
    (world_state_process_proofs : List (SmtProcessProof F))
    (user_tx_proofs : List (UserTxAssignment F))
    (old_world_state_root : HashOut F) : Bool :=
  chaining_constraints old_world_state_root world_state_process_proofs &&
    decide (world_state_process_proofs.length = user_tx_proofs.length) &&
    (world_state_process_proofs.zip user_tx_proofs).all
      (fun wu => slot_constraints wu.1 wu.2)

/-- The `block_tx_root` output wire of `verify_valid_proposal_block`:
the leaf-list Merkle root of the slots' diff roots, in slot order. -/
def proposal_block_tx_root [Zero F] (hash : HashOut F → HashOut F → HashOut F)
    (user_tx_proofs : List (UserTxAssignment F)) : Option (HashOut F) :=
  get_merkle_root_target_from_leaves hash
    (user_tx_proofs.map fun u =>
      (parse_merge_and_purge_public_inputs u.public_inputs u.pub_len).diff_root)

/-- A satisfying assignment of the whole proposal-block circuit
(`ProposalBlockProofTarget::add_virtual_to`): every process-proof slot
satisfies the (spec-modelled) sparse-Merkle process gadget constraints,
and all constraints of `verify_valid_proposal_block` hold.  The
recursive-verification constraints on the inner transaction proofs
bind no relation between the value fields modelled here, so omitting
them only enlarges the set of assignments quantified over. -/
def proposal_block_circuit_sat [DecidableEq F] [Zero F]
    (world_state_process_proofs : List (SmtProcessProof F))
    (user_tx_proofs : List (UserTxAssignment F))
    (old_world_state_root : HashOut F) : Bool :=
  world_state_process_proofs.all smt_process_proof_valid &&
    verify_valid_proposal_block world_state_process_proofs user_tx_proofs
      old_world_state_root

/-- The running world-state root before slot `i`: the old root advanced
through the first `i` process proofs. -/
def running_root (old_root : HashOut F)
    (proofs : List (SmtProcessProof F)) (i : Nat) : HashOut F :=
  (proofs.take i).foldl (fun _ p => p.new_root) old_root

end ProposalBlock

section AddressList

variable {F : Type} {P S : Type}

/-- `TransactionSenderWithValidity` (`src/rollup/address_list.rs:19`). -/
structure TransactionSenderWithValidity (F : Type) where
  sender_address : Address F
  is_valid : Bool
deriving DecidableEq

/-- `MergeAndPurgeTransitionProofWithPublicInputs`
(`src/transaction/circuits/mod.rs:318`): an (abstract) backend proof
paired with the decoded public-input record. -/
structure MergeAndPurgeTransitionProofWithPublicInputs (P F : Type) where
  proof : P
  public_inputs : MergeAndPurgeTransitionPublicInputs F

/-- Rust `Vec::resize(n, pad)`: truncate to `n` entries when longer,
pad with `pad` up to `n` entries when shorter. -/
def vec_resize (l : List α) (n : Nat) (pad : α) : List α :=
  l.take n ++ List.replicate (n - l.length) pad

/-- `make_address_list` (`src/rollup/address_list.rs:24`): zip the user
transaction proofs with the optional signature proofs (`zip_eq`, so
`none` models the panic on a length mismatch), record each sender
address with `is_valid = signature present`, then `resize` to
`num_transactions` entries padding with the zero address and `false`. -/
def make_address_list [Zero F]
    (user_tx_proofs : List (MergeAndPurgeTransitionProofWithPublicInputs P F))
    (received_signatures : List (Option S))
    (num_transactions : Nat) :
    Option (List (TransactionSenderWithValidity F)) :=
  if user_tx_proofs.length = received_signatures.length then
    some (vec_resize
      ((user_tx_proofs.zip received_signatures).map fun us =>
        ⟨us.1.public_inputs.sender_address, us.2.isSome⟩)
      num_transactions
      ⟨default_hash F, false⟩)
  else
    none

end AddressList

section SetWitness

variable {F : Type} {P : Type}

/-- One witness-assignment action performed by
`ProposalBlockProofTarget::set_witness`, in program order:
the old-world-state-root hash target, one process-proof slot, or one
user-transaction slot (with its `enabled` flag). -/
inductive ProposalWitnessAction (F P : Type) where
  | set_old_world_state_root (value : HashOut F)
  | set_process_proof (slot : Nat) (proof : SmtProcessProof F)
  | set_user_tx_proof (slot : Nat) (proof : P) (enabled : Bool)
deriving DecidableEq

/-- `ProposalBlockProofTarget::set_witness`
(`src/rollup/gadgets/proposal_block/mod.rs:100`) with `N_TXS = n_txs`:
returns the sequence of witness assignments performed, in order, and
whether the call succeeded (`false` models an `assert!` panic, the
trace then holding exactly the assignments made before the failing
assertion).  Program order: assign the old world-state root; assert the
process-proof list non-empty and at most `N_TXS` long; assign the real
process proofs, then pad the remaining slots with
`SmtProcessProof::with_root(last genuine new_root)`; assert the user
transaction list non-empty and at most `N_TXS` long; assign the real
transaction proofs with `enabled = true`, then pad with the last real
proof and `enabled = false`. -/
def ProposalBlockProofTarget.set_witness [Zero F] (n_txs : Nat)
    (world_state_process_proofs : List (SmtProcessProof F))
    (user_tx_proofs : List P)
    (old_world_state_root : HashOut F) :
    List (ProposalWitnessAction F P) × Bool :=
  let trace0 := [ProposalWitnessAction.set_old_world_state_root old_world_state_root]
  match world_state_process_proofs, user_tx_proofs with
  | [], _ => (trace0, false)
  | w :: ws, txs =>
      if n_txs < (w :: ws).length then (trace0, false)
      else
        let real_ws := ((w :: ws).enum.map fun pi =>
          ProposalWitnessAction.set_process_proof (F := F) (P := P) pi.1 pi.2)
        let latest_root := ((w :: ws).getLast (List.cons_ne_nil w ws)).new_root
        let default_proof := SmtProcessProof.with_root (F := F) latest_root
        let pad_ws := (List.range (n_txs - (w :: ws).length)).map fun j =>
          ProposalWitnessAction.set_process_proof (F := F) (P := P)
            ((w :: ws).length + j) default_proof
        let trace1 := trace0 ++ real_ws ++ pad_ws
        match txs with
        | [] => (trace1, false)
        | t :: ts =>
            if n_txs < (t :: ts).length then (trace1, false)
            else
              let real_txs := ((t :: ts).enum.map fun pi =>
                ProposalWitnessAction.set_user_tx_proof (F := F) pi.1 pi.2 true)
              let last_tx := (t :: ts).getLast (List.cons_ne_nil t ts)
              let pad_txs := (List.range (n_txs - (t :: ts).length)).map fun j =>
                ProposalWitnessAction.set_user_tx_proof (F := F)
                  ((t :: ts).length + j) last_tx false
              (trace1 ++ real_txs ++ pad_txs, true)

end SetWitness

/-! ## Concrete data used by the witness theorems -/

/-- A concrete public-input record over `Nat` for witness checks. -/
def sample_public_inputs : MergeAndPurgeTransitionPublicInputs Nat :=
  ⟨⟨1, 2, 3, 4⟩, ⟨5, 6, 7, 8⟩, ⟨9, 10, 11, 12⟩, ⟨13, 14, 15, 16⟩,
    ⟨17, 18, 19, 20⟩, ⟨21, 22, 23, 24⟩⟩

/-- A concrete 24-element public-input vector over `Nat`. -/
def sample_public_input_vector : List Nat :=
  List.range 24

/-- A concrete two-to-one compression over `Nat` digests for witness
checks (injectively combining the first coordinates). -/
def sample_hash (a b : HashOut Nat) : HashOut Nat :=
  ⟨2 * a.e0 + 3 * b.e0 + 1, a.e1 + b.e1, a.e2 + b.e2, a.e3 + b.e3⟩

/-- A process proof performing an update, consistent with
`sample_public_input_vector`: old value = slots `[4..8)`, new value =
slots `[8..12)` of `List.range 24`. -/
def sample_process_update : SmtProcessProof Nat :=
  ⟨ProcessRole.Update, ⟨100, 0, 0, 0⟩, ⟨101, 0, 0, 0⟩, ⟨4, 5, 6, 7⟩, ⟨8, 9, 10, 11⟩⟩

/-- A no-op process proof at the root left by `sample_process_update`. -/
def sample_process_noop : SmtProcessProof Nat :=
  ⟨ProcessRole.NoOp, ⟨101, 0, 0, 0⟩, ⟨101, 0, 0, 0⟩, ⟨0, 0, 0, 0⟩, ⟨0, 0, 0, 0⟩⟩

/-- An enabled user-transaction slot carrying `sample_public_input_vector`. -/
def sample_tx_enabled : UserTxAssignment Nat :=
  ⟨List.range 24, by decide, true⟩

/-- A disabled (padding) user-transaction slot. -/
def sample_tx_disabled : UserTxAssignment Nat :=
  ⟨List.range 24, by decide, false⟩

/-- A two-slot batch satisfying the proposal-block constraints:
an enabled update followed by a disabled no-op. -/
def sample_ws_proofs : List (SmtProcessProof Nat) :=
  [sample_process_update, sample_process_noop]

/-- The user-transaction slots paired with `sample_ws_proofs`. -/
def sample_txs : List (UserTxAssignment Nat) :=
  [sample_tx_enabled, sample_tx_disabled]

/-- The world-state root before the sample batch. -/
def sample_old_root : HashOut Nat :=
  ⟨100, 0, 0, 0⟩

/-- Public inputs whose `new_user_asset_root` slots `[8..12)` hold the
empty digest, as a remove-role transaction must have. -/
def sample_remove_public_inputs : List Nat :=
  [0, 1, 2, 3, 4, 5, 6, 7, 0, 0, 0, 0, 12, 13, 14, 15, 16, 17, 18, 19, 20, 21, 22, 23]

/-- A process proof performing a remove, consistent with
`sample_remove_public_inputs`. -/
def sample_process_remove : SmtProcessProof Nat :=
  ⟨ProcessRole.Remove, ⟨200, 0, 0, 0⟩, ⟨201, 0, 0, 0⟩, ⟨4, 5, 6, 7⟩, ⟨0, 0, 0, 0⟩⟩

/-- The enabled user-transaction slot paired with
`sample_process_remove`. -/
def sample_tx_remove : UserTxAssignment Nat :=
  ⟨sample_remove_public_inputs, by decide, true⟩

/-! ## Theorems for the claims -/

theorem split_le_succ (x n : Nat) :
    split_le x (n + 1) = decide (x % 2 = 1) :: split_le (x / 2) n := by
  simp only [split_le, List.range_succ_eq_map, List.map_cons, List.map_map]
  rw [Nat.testBit_zero]
  congr 1
  exact List.map_congr_left fun i _ => Nat.testBit_succ x i

theorem get_merkle_root_target_cons {F : Type}
    (hash : HashOut F → HashOut F → HashOut F)
    (index : Nat) (value s : HashOut F) (rest : List (HashOut F)) :
    get_merkle_root_target hash index value (s :: rest) =
      get_merkle_root_target hash (index / 2)
        (if index % 2 = 1 then hash s value else hash value s) rest := by
  simp only [get_merkle_root_target, List.length_cons, split_le_succ,
    List.zip_cons_cons, List.foldl_cons, conditionally_reverse]
  by_cases hb : index % 2 = 1 <;> simp [hb]

theorem get_merkle_root_target_eq_get_merkle_root {F : Type}
    (hash : HashOut F → HashOut F → HashOut F) :
    ∀ (siblings : List (HashOut F)) (index : Nat) (value : HashOut F),
      get_merkle_root_target hash index value siblings =
        get_merkle_root hash index value siblings
  | [], _, _ => by
      simp [get_merkle_root_target, get_merkle_root, split_le]
  | s :: rest, index, value => by
      rw [get_merkle_root_target_cons, get_merkle_root,
        get_merkle_root_target_eq_get_merkle_root hash rest]

/-- C6: for every index in `[0, 2^N_LEVELS)`, every value digest and
every list of `N_LEVELS` sibling digests, the root wire computed
in-circuit by `get_merkle_root_target` (LSB-first index bits,
conditionally swapping so bit = 1 places the current digest as the
right child) evaluates, under the witness assigned by
`MerkleProofTarget::set_witness`, to exactly the value `set_witness`
returns from the off-circuit `get_merkle_root` on the same index, value
and siblings. -/
theorem merkle_root_target_matches_set_witness {F : Type}
    (hash : HashOut F → HashOut F → HashOut F) (n_levels : Nat)
    (index : Nat) (value : HashOut F) (siblings : List (HashOut F))
    (_hidx : index < 2 ^ n_levels) (_hsib : siblings.length = n_levels) :
    get_merkle_root_target hash index value siblings =
      MerkleProofTarget.set_witness hash index value siblings :=
  get_merkle_root_target_eq_get_merkle_root hash siblings index value

/-- Witness for C6 at depth 2, index 3, concrete value and siblings
over `Nat`. -/
theorem merkle_root_target_matches_set_witness_witness :
    3 < 2 ^ 2 ∧ ([⟨1, 0, 0, 0⟩, ⟨2, 0, 0, 0⟩] : List (HashOut Nat)).length = 2 ∧
      get_merkle_root_target sample_hash 3 ⟨7, 0, 0, 0⟩
          [⟨1, 0, 0, 0⟩, ⟨2, 0, 0, 0⟩] =
        MerkleProofTarget.set_witness sample_hash 3 ⟨7, 0, 0, 0⟩
          [⟨1, 0, 0, 0⟩, ⟨2, 0, 0, 0⟩] :=
  ⟨by decide, by decide,
    merkle_root_target_matches_set_witness sample_hash 2 3 ⟨7, 0, 0, 0⟩
      [⟨1, 0, 0, 0⟩, ⟨2, 0, 0, 0⟩] (by decide) (by decide)⟩

/-- C5: `MergeAndPurgeTransitionPublicInputs::encode` produces exactly 24
field elements with `old_user_asset_root` at slots `[0..4)`,
`middle_user_asset_root` at `[4..8)`, `new_user_asset_root` at `[8..12)`,
`diff_root` at `[12..16)`, `sender_address` at `[16..20)`, `tx_hash` at
`[20..24)`, and parsing by these exact ranges inverts it: decoding
`encode(p)` by those slot ranges returns `p`, and for every 24-element
vector `v`, encoding the decoded record returns `v`. -/
theorem merge_and_purge_wire_format_round_trip {F : Type}
    (p : MergeAndPurgeTransitionPublicInputs F)
    (v : List F) (hv : v.length = 24) :
    p.encode.length = 24 ∧
      parse_merge_and_purge_public_inputs p.encode
        (by rw [encode_length]) = p ∧
      (parse_merge_and_purge_public_inputs v (by omega)).encode = v := by
  refine ⟨encode_length p, ?_, ?_⟩
  · obtain ⟨⟨a0, a1, a2, a3⟩, ⟨b0, b1, b2, b3⟩, ⟨c0, c1, c2, c3⟩,
      ⟨d0, d1, d2, d3⟩, ⟨f0, f1, f2, f3⟩, ⟨g0, g1, g2, g3⟩⟩ := p
    rfl
  · apply List.ext_getElem
    · rw [encode_length, hv]
    · intro i h1 h2
      rw [encode_length] at h1
      interval_cases i <;> rfl

/-- Witness for C5 at a concrete record and a concrete 24-element
vector over `Nat`. -/
theorem merge_and_purge_wire_format_round_trip_witness :
    sample_public_input_vector.length = 24 ∧
      (sample_public_inputs.encode.length = 24 ∧
        parse_merge_and_purge_public_inputs sample_public_inputs.encode
          (by rw [encode_length]) = sample_public_inputs ∧
        (parse_merge_and_purge_public_inputs sample_public_input_vector
          (by decide)).encode = sample_public_input_vector) :=
  ⟨by decide,
    merge_and_purge_wire_format_round_trip sample_public_inputs
      sample_public_input_vector (by decide)⟩

/-- C7 counterexample: for the singleton (non-empty, odd-length) leaf
list `[z]` the loop of `get_merkle_root_target_from_leaves` never runs,
so the root is the leaf itself, while the same list with its last
element appended once more yields the compression of the pair — the two
roots differ for any compression with `hash z z ≠ z`. -/
theorem leaf_list_duplication_counterexample :
    (([(⟨0, 0, 0, 0⟩ : HashOut Nat)]).length ≠ 0 ∧
        ([(⟨0, 0, 0, 0⟩ : HashOut Nat)]).length % 2 = 1) ∧
      get_merkle_root_target_from_leaves sample_hash
          [(⟨0, 0, 0, 0⟩ : HashOut Nat)] ≠
        get_merkle_root_target_from_leaves sample_hash
          ([(⟨0, 0, 0, 0⟩ : HashOut Nat)] ++ [⟨0, 0, 0, 0⟩]) := by
  refine ⟨⟨by decide, by decide⟩, ?_⟩
  simp [get_merkle_root_target_from_leaves, pair_hash_layer, sample_hash]

/-- C7 (amended): for every odd-length leaf list with at least 3
entries — that is, whenever the compression loop actually runs on the
odd layer — the root computed by `get_merkle_root_target_from_leaves`
equals the root computed on the list with its last element appended
once more, because the first layer duplicates its last entry before
pairwise compression.  (For a singleton list the root is the leaf
itself, not the compression of the duplicated pair.) -/
theorem leaf_list_duplication_amended {F : Type}
    (hash : HashOut F → HashOut F → HashOut F)
    (l : List (HashOut F)) (h3 : 3 ≤ l.length) (hodd : l.length % 2 = 1) :
    get_merkle_root_target_from_leaves hash l =
      get_merkle_root_target_from_leaves hash
        (l ++ [l.getLast (List.ne_nil_of_length_pos (by omega))]) := by
  obtain ⟨a, b, rest, rfl⟩ : ∃ a b rest, l = a :: b :: rest := by
    match l, h3 with
    | a :: b :: rest, _ => exact ⟨a, b, rest, rfl⟩
  rw [List.cons_append, List.cons_append]
  rw [get_merkle_root_target_from_leaves, get_merkle_root_target_from_leaves]
  rw [if_pos hodd]
  rw [if_neg (by simp at hodd ⊢; omega)]
  simp

/-- Witness for the amended C7 at the concrete 3-element list
`[⟨1,…⟩, ⟨2,…⟩, ⟨3,…⟩]` over `Nat`. -/
theorem leaf_list_duplication_amended_witness :
    3 ≤ ([⟨1, 0, 0, 0⟩, ⟨2, 0, 0, 0⟩, ⟨3, 0, 0, 0⟩] : List (HashOut Nat)).length ∧
      ([⟨1, 0, 0, 0⟩, ⟨2, 0, 0, 0⟩, ⟨3, 0, 0, 0⟩] : List (HashOut Nat)).length % 2 = 1 ∧
      get_merkle_root_target_from_leaves sample_hash
          [⟨1, 0, 0, 0⟩, ⟨2, 0, 0, 0⟩, ⟨3, 0, 0, 0⟩] =
        get_merkle_root_target_from_leaves sample_hash
          ([⟨1, 0, 0, 0⟩, ⟨2, 0, 0, 0⟩, ⟨3, 0, 0, 0⟩] ++
            [([⟨1, 0, 0, 0⟩, ⟨2, 0, 0, 0⟩, ⟨3, 0, 0, 0⟩] : List (HashOut Nat)).getLast
              (List.ne_nil_of_length_pos (by decide))]) :=
  ⟨by decide, by decide,
    leaf_list_duplication_amended sample_hash
      [⟨1, 0, 0, 0⟩, ⟨2, 0, 0, 0⟩, ⟨3, 0, 0, 0⟩] (by decide) (by decide)⟩

theorem running_root_cons {F : Type} (old : HashOut F) (p : SmtProcessProof F)
    (ps : List (SmtProcessProof F)) (i : Nat) :
    running_root old (p :: ps) (i + 1) = running_root p.new_root ps i :=
  rfl

theorem chaining_constraints_sound {F : Type} [DecidableEq F] :
    ∀ (ws : List (SmtProcessProof F)) (old : HashOut F),
      chaining_constraints old ws = true →
      ∀ i (hi : i < ws.length), ws[i].fnc ≠ ProcessRole.NoOp →
        ws[i].old_root = running_root old ws i := by
  intro ws
  induction ws with
  | nil => intro old _ i hi; simp at hi
  | cons p rest ih =>
      intro old h i hi hne
      rw [chaining_constraints, Bool.and_eq_true] at h
      cases i with
      | zero =>
          have h1 := h.1
          simp only [enforce_equal_if_enabled, get_process_merkle_proof_role,
            Bool.or_eq_true, Bool.not_eq_true', decide_eq_false_iff_not,
            decide_eq_true_eq, Decidable.not_not] at h1
          simp only [List.getElem_cons_zero] at hne ⊢
          rcases h1 with h2 | h2
          · exact absurd h2 hne
          · exact h2
      | succ j =>
          simp only [List.getElem_cons_succ] at hne ⊢
          rw [running_root_cons]
          exact ih p.new_root h.2 j (by simpa using hi) hne

theorem running_root_advances {F : Type} :
    ∀ (ws : List (SmtProcessProof F)) (old : HashOut F) (i : Nat)
      (hi : i < ws.length), running_root old ws (i + 1) = ws[i].new_root := by
  intro ws
  induction ws with
  | nil => intro old i hi; simp at hi
  | cons p rest ih =>
      intro old i hi
      cases i with
      | zero => rfl
      | succ j =>
          rw [running_root_cons]
          simpa using ih p.new_root j (by simpa using hi)

theorem proposal_new_world_state_root_eq_running {F : Type}
    (old : HashOut F) (ws : List (SmtProcessProof F)) :
    proposal_new_world_state_root old ws = running_root old ws ws.length := by
  simp [proposal_new_world_state_root, running_root]

/-- C1: for every satisfying assignment of the constraints generated by
`verify_valid_proposal_block` over the process-proof slots and an old
world-state root, iterating the process proofs in slot order with a
running root initialized to the old world-state root: every slot whose
role is not NoOp has `old_root` equal to the running root, the running
root advances to that slot's `new_root` regardless of role, and the
circuit's `new_world_state_root` output equals the running root after
the last slot. -/
theorem verify_valid_proposal_block_root_chaining {F : Type} [DecidableEq F] [Zero F]
    (ws : List (SmtProcessProof F)) (txs : List (UserTxAssignment F))
    (old : HashOut F)
    (hsat : verify_valid_proposal_block ws txs old = true) :
    (∀ i (hi : i < ws.length), ws[i].fnc ≠ ProcessRole.NoOp →
        ws[i].old_root = running_root old ws i) ∧
      (∀ i (hi : i < ws.length), running_root old ws (i + 1) = ws[i].new_root) ∧
      proposal_new_world_state_root old ws = running_root old ws ws.length := by
  rw [verify_valid_proposal_block, Bool.and_eq_true, Bool.and_eq_true] at hsat
  exact ⟨chaining_constraints_sound ws old hsat.1.1,
    fun i hi => running_root_advances ws old i hi,
    proposal_new_world_state_root_eq_running old ws⟩

/-- Witness for C1 at a concrete satisfying two-slot assignment:
an enabled update followed by a disabled no-op. -/
theorem verify_valid_proposal_block_root_chaining_witness :
    verify_valid_proposal_block sample_ws_proofs sample_txs sample_old_root = true ∧
      (sample_ws_proofs.get ⟨0, by decide⟩).old_root =
        running_root sample_old_root sample_ws_proofs 0 ∧
      proposal_new_world_state_root sample_old_root sample_ws_proofs =
        running_root sample_old_root sample_ws_proofs sample_ws_proofs.length :=
  ⟨by decide,
    (verify_valid_proposal_block_root_chaining sample_ws_proofs sample_txs
        sample_old_root (by decide)).1 0 (by decide) (by decide),
    (verify_valid_proposal_block_root_chaining sample_ws_proofs sample_txs
        sample_old_root (by decide)).2.2⟩

theorem proposal_block_lengths_eq {F : Type} [DecidableEq F] [Zero F]
    (ws : List (SmtProcessProof F)) (txs : List (UserTxAssignment F))
    (old : HashOut F)
    (hsat : verify_valid_proposal_block ws txs old = true) :
    ws.length = txs.length := by
  rw [verify_valid_proposal_block, Bool.and_eq_true, Bool.and_eq_true] at hsat
  exact of_decide_eq_true hsat.1.2

set_option maxHeartbeats 2000000 in
theorem slot_constraints_of_sat {F : Type} [DecidableEq F] [Zero F]
    (ws : List (SmtProcessProof F)) (txs : List (UserTxAssignment F))
    (old : HashOut F)
    (hsat : verify_valid_proposal_block ws txs old = true)
    (i : Nat) (hi : i < ws.length) (hj : i < txs.length) :
    slot_constraints ws[i] txs[i] = true := by
  simp only [verify_valid_proposal_block, Bool.and_eq_true] at hsat
  have hall := List.all_eq_true.mp hsat.2
  have hlen : i < (ws.zip txs).length := by
    rw [List.length_zip]
    omega
  have hmem : (ws[i], txs[i]) ∈ ws.zip txs := by
    have hz : (ws.zip txs)[i] = (ws[i], txs[i]) := List.getElem_zip
    rw [← hz]
    exact List.getElem_mem hlen
  exact hall _ hmem

theorem enforce_equal_if_enabled_sound {F : Type} [DecidableEq F]
    (a b : HashOut F) (e : Bool)
    (h : enforce_equal_if_enabled a b e = true) (he : e = true) : a = b := by
  subst he
  simpa [enforce_equal_if_enabled] using h

theorem slot_constraints_spec {F : Type} [DecidableEq F] [Zero F]
    (w : SmtProcessProof F) (u : UserTxAssignment F)
    (h : slot_constraints w u = true) :
    (w.fnc = ProcessRole.NoOp ∨ u.enabled = true) ∧
      (u.enabled = true →
        (parse_merge_and_purge_public_inputs u.public_inputs
          u.pub_len).middle_user_asset_root = w.old_value) ∧
      w.fnc ≠ ProcessRole.Insert ∧
      (w.fnc = ProcessRole.Update → u.enabled = true →
        (parse_merge_and_purge_public_inputs u.public_inputs
          u.pub_len).new_user_asset_root = w.new_value) ∧
      (w.fnc = ProcessRole.Remove → u.enabled = true →
        (parse_merge_and_purge_public_inputs u.public_inputs
          u.pub_len).new_user_asset_root = default_hash F) ∧
      (w.fnc = ProcessRole.NoOp → u.enabled = true →
        (parse_merge_and_purge_public_inputs u.public_inputs
          u.pub_len).new_user_asset_root =
          (parse_merge_and_purge_public_inputs u.public_inputs
            u.pub_len).middle_user_asset_root) := by
  simp only [slot_constraints, Bool.and_eq_true] at h
  obtain ⟨⟨⟨⟨⟨h1, h2⟩, h3⟩, h4⟩, h5⟩, h6⟩ := h
  refine ⟨?_, ?_, ?_, ?_, ?_, ?_⟩
  · simpa [logical_or, get_process_merkle_proof_role, Bool.or_eq_true,
      decide_eq_true_eq] using h1
  · intro he
    exact enforce_equal_if_enabled_sound _ _ _ h2 he
  · simpa [get_process_merkle_proof_role] using h3
  · intro hu he
    refine enforce_equal_if_enabled_sound _ _ _ h4 ?_
    simp [get_process_merkle_proof_role, hu, he]
  · intro hr he
    refine enforce_equal_if_enabled_sound _ _ _ h5 ?_
    simp [get_process_merkle_proof_role, hr, he]
  · intro hn he
    refine enforce_equal_if_enabled_sound _ _ _ h6 ?_
    simp [get_process_merkle_proof_role, hn, he]

/-- C2: in every satisfying assignment of the proposal-block circuit,
every slot satisfies the disjunction: the slot's world-state process
proof has role NoOp, or the slot's recursive user-transaction wrapper
has `enabled = true`; equivalently, no satisfying assignment contains a
slot with a non-NoOp role and a disabled transaction. -/
theorem proposal_block_slot_noop_or_enabled {F : Type} [DecidableEq F] [Zero F]
    (ws : List (SmtProcessProof F)) (txs : List (UserTxAssignment F))
    (old : HashOut F)
    (hsat : proposal_block_circuit_sat ws txs old = true) :
    ∀ i (hi : i < ws.length) (hj : i < txs.length),
      ws[i].fnc = ProcessRole.NoOp ∨ txs[i].enabled = true := by
  intro i hi hj
  rw [proposal_block_circuit_sat, Bool.and_eq_true] at hsat
  exact (slot_constraints_spec _ _
    (slot_constraints_of_sat ws txs old hsat.2 i hi hj)).1

/-- Witness for C2 at the concrete two-slot satisfying assignment,
slot 0 (an enabled update slot). -/
theorem proposal_block_slot_noop_or_enabled_witness :
    proposal_block_circuit_sat sample_ws_proofs sample_txs sample_old_root = true ∧
      ((sample_ws_proofs.get ⟨0, by decide⟩).fnc = ProcessRole.NoOp ∨
        (sample_txs.get ⟨0, by decide⟩).enabled = true) :=
  ⟨by decide,
    proposal_block_slot_noop_or_enabled sample_ws_proofs sample_txs
      sample_old_root (by decide) 0 (by decide) (by decide)⟩

/-- C3: in every satisfying assignment of the proposal-block circuit,
no slot's world-state process proof has role Insert — the
insert-rejection constraint is unconditional, so this holds for every
value of the paired transaction's enabled flag. -/
theorem proposal_block_rejects_insert {F : Type} [DecidableEq F] [Zero F]
    (ws : List (SmtProcessProof F)) (txs : List (UserTxAssignment F))
    (old : HashOut F)
    (hsat : proposal_block_circuit_sat ws txs old = true) :
    ∀ i (hi : i < ws.length), ws[i].fnc ≠ ProcessRole.Insert := by
  intro i hi
  rw [proposal_block_circuit_sat, Bool.and_eq_true] at hsat
  have hj : i < txs.length := by
    rw [← proposal_block_lengths_eq ws txs old hsat.2]
    exact hi
  exact (slot_constraints_spec _ _
    (slot_constraints_of_sat ws txs old hsat.2 i hi hj)).2.2.1

/-- Witness for C3 at the concrete two-slot satisfying assignment,
slot 1 (a disabled no-op slot). -/
theorem proposal_block_rejects_insert_witness :
    proposal_block_circuit_sat sample_ws_proofs sample_txs sample_old_root = true ∧
      (sample_ws_proofs.get ⟨1, by decide⟩).fnc ≠ ProcessRole.Insert :=
  ⟨by decide,
    proposal_block_rejects_insert sample_ws_proofs sample_txs
      sample_old_root (by decide) 1 (by decide)⟩

/-- C4: in every satisfying assignment of the proposal-block circuit,
for every slot whose transaction is enabled and whose world-state
process proof has role Remove, the process proof's `new_value` equals
the empty (all-zero) digest.  This is enforced by the (spec-modelled)
sparse-Merkle process gadget's role/value consistency; the
`verify_valid_proposal_block` constraint at the remove role pins the
transaction's `new_user_asset_root` (not `new_value`) to the empty
digest, cf. `slot_constraints_spec`. -/
theorem proposal_block_remove_new_value_empty {F : Type} [DecidableEq F] [Zero F]
    (ws : List (SmtProcessProof F)) (txs : List (UserTxAssignment F))
    (old : HashOut F)
    (hsat : proposal_block_circuit_sat ws txs old = true) :
    ∀ i (hi : i < ws.length) (hj : i < txs.length),
      txs[i].enabled = true → ws[i].fnc = ProcessRole.Remove →
        ws[i].new_value = default_hash F := by
  intro i hi hj hen hrem
  rw [proposal_block_circuit_sat, Bool.and_eq_true] at hsat
  have hvalid := List.all_eq_true.mp hsat.1 _ (List.getElem_mem hi)
  rw [smt_process_proof_valid, hrem] at hvalid
  simp only [Bool.and_eq_true, decide_eq_true_eq] at hvalid
  exact hvalid.2

/-- Witness for C4 at a concrete one-slot satisfying assignment whose
single slot is an enabled remove. -/
theorem proposal_block_remove_new_value_empty_witness :
    proposal_block_circuit_sat [sample_process_remove] [sample_tx_remove]
        ⟨200, 0, 0, 0⟩ = true ∧
      sample_process_remove.new_value = default_hash Nat :=
  ⟨by decide,
    proposal_block_remove_new_value_empty [sample_process_remove]
      [sample_tx_remove] ⟨200, 0, 0, 0⟩ (by decide) 0 (by decide) (by decide)
      (by decide) (by decide)⟩

/-- C8: for every list of `k` user-transaction records and every
same-length list of optional signature proofs with `k ≤
num_transactions`, `make_address_list` returns a list of exactly
`num_transactions` entries whose first `k` entries are the senders
paired with signature presence, and whose remaining entries are the
zero address paired with `false`. -/
theorem make_address_list_spec {F P S : Type} [Zero F]
    (user_tx_proofs : List (MergeAndPurgeTransitionProofWithPublicInputs P F))
    (received_signatures : List (Option S)) (num_transactions : Nat)
    (hlen : user_tx_proofs.length = received_signatures.length)
    (hk : user_tx_proofs.length ≤ num_transactions) :
    ∃ l,
      make_address_list user_tx_proofs received_signatures num_transactions =
          some l ∧
        l.length = num_transactions ∧
        (∀ i (hi : i < user_tx_proofs.length)
            (hj : i < received_signatures.length) (hl : i < l.length),
          l[i] = ⟨user_tx_proofs[i].public_inputs.sender_address,
            received_signatures[i].isSome⟩) ∧
        (∀ i (hl : i < l.length), user_tx_proofs.length ≤ i →
          l[i] = ⟨default_hash F, false⟩) := by
  rw [make_address_list, if_pos hlen]
  set zipped := ((user_tx_proofs.zip received_signatures).map fun us =>
    (⟨us.1.public_inputs.sender_address, us.2.isSome⟩ :
      TransactionSenderWithValidity F)) with hzip
  have hzlen : zipped.length = user_tx_proofs.length := by
    simp [hzip, List.length_zip, hlen]
  have htake : zipped.take num_transactions = zipped :=
    List.take_of_length_le (by omega)
  refine ⟨_, rfl, ?_, ?_, ?_⟩
  · simp only [vec_resize, htake, List.length_append, List.length_replicate]
    omega
  · intro i hi hj hl
    simp only [vec_resize, htake]
    rw [List.getElem_append_left (by omega)]
    simp [hzip, List.getElem_zip]
  · intro i hl hge
    simp only [vec_resize, htake]
    rw [List.getElem_append_right (by omega)]
    exact List.getElem_replicate ..

/-- Witness for C8: two transactions (one signed, one unsigned) padded
to capacity 4. -/
theorem make_address_list_spec_witness :
    ([(⟨0, sample_public_inputs⟩ :
          MergeAndPurgeTransitionProofWithPublicInputs Nat Nat),
        ⟨1, sample_public_inputs⟩].length =
        ([some 5, none] : List (Option Nat)).length) ∧
      ([(⟨0, sample_public_inputs⟩ :
          MergeAndPurgeTransitionProofWithPublicInputs Nat Nat),
        ⟨1, sample_public_inputs⟩].length ≤ 4) ∧
      ∃ l,
        make_address_list
            [(⟨0, sample_public_inputs⟩ :
                MergeAndPurgeTransitionProofWithPublicInputs Nat Nat),
              ⟨1, sample_public_inputs⟩]
            ([some 5, none] : List (Option Nat)) 4 = some l ∧
          l.length = 4 ∧
          (∀ i (_hi : i < ([(⟨0, sample_public_inputs⟩ :
              MergeAndPurgeTransitionProofWithPublicInputs Nat Nat),
              ⟨1, sample_public_inputs⟩]).length)
              (hj : i < ([some 5, none] : List (Option Nat)).length)
              (hl : i < l.length),
            l[i] = ⟨([(⟨0, sample_public_inputs⟩ :
                MergeAndPurgeTransitionProofWithPublicInputs Nat Nat),
                ⟨1, sample_public_inputs⟩])[i].public_inputs.sender_address,
              (([some 5, none] : List (Option Nat))[i]).isSome⟩) ∧
          (∀ i (hl : i < l.length),
            ([(⟨0, sample_public_inputs⟩ :
                MergeAndPurgeTransitionProofWithPublicInputs Nat Nat),
              ⟨1, sample_public_inputs⟩]).length ≤ i →
            l[i] = ⟨default_hash Nat, false⟩) :=
  ⟨by decide, by decide,
    make_address_list_spec
      [⟨0, sample_public_inputs⟩, ⟨1, sample_public_inputs⟩]
      [some 5, none] 4 (by decide) (by decide)⟩

/-- C10: for every pair of equal-length input lists whose length
exceeds `num_transactions`, `make_address_list` still returns exactly
`num_transactions` entries — the entries beyond index
`num_transactions - 1` are silently dropped by the resize rather than
the call being rejected. -/
theorem make_address_list_truncates {F P S : Type} [Zero F]
    (user_tx_proofs : List (MergeAndPurgeTransitionProofWithPublicInputs P F))
    (received_signatures : List (Option S)) (num_transactions : Nat)
    (hlen : user_tx_proofs.length = received_signatures.length)
    (hn : num_transactions < user_tx_proofs.length) :
    ∃ l,
      make_address_list user_tx_proofs received_signatures num_transactions =
          some l ∧
        l.length = num_transactions ∧
        (∀ i (hi : i < user_tx_proofs.length)
            (hj : i < received_signatures.length) (hl : i < l.length),
          l[i] = ⟨user_tx_proofs[i].public_inputs.sender_address,
            received_signatures[i].isSome⟩) := by
  rw [make_address_list, if_pos hlen]
  set zipped := ((user_tx_proofs.zip received_signatures).map fun us =>
    (⟨us.1.public_inputs.sender_address, us.2.isSome⟩ :
      TransactionSenderWithValidity F)) with hzip
  have hzlen : zipped.length = user_tx_proofs.length := by
    simp [hzip, List.length_zip, hlen]
  refine ⟨_, rfl, ?_, ?_⟩
  · simp only [vec_resize, List.length_append, List.length_take,
      List.length_replicate, hzlen]
    omega
  · intro i hi hj hl
    have hil : i < num_transactions := by
      simp only [vec_resize, List.length_append, List.length_take,
        List.length_replicate, hzlen] at hl
      omega
    simp only [vec_resize]
    rw [List.getElem_append_left (by simp [List.length_take]; omega)]
    rw [List.getElem_take]
    simp [hzip, List.getElem_zip]

/-- Witness for C10: three transactions truncated to capacity 2. -/
theorem make_address_list_truncates_witness :
    ([(⟨0, sample_public_inputs⟩ :
          MergeAndPurgeTransitionProofWithPublicInputs Nat Nat),
        ⟨1, sample_public_inputs⟩, ⟨2, sample_public_inputs⟩].length =
        ([some 5, none, some 6] : List (Option Nat)).length) ∧
      (2 < [(⟨0, sample_public_inputs⟩ :
          MergeAndPurgeTransitionProofWithPublicInputs Nat Nat),
        ⟨1, sample_public_inputs⟩, ⟨2, sample_public_inputs⟩].length) ∧
      ∃ l,
        make_address_list
            [(⟨0, sample_public_inputs⟩ :
                MergeAndPurgeTransitionProofWithPublicInputs Nat Nat),
              ⟨1, sample_public_inputs⟩, ⟨2, sample_public_inputs⟩]
            ([some 5, none, some 6] : List (Option Nat)) 2 = some l ∧
          l.length = 2 ∧
          (∀ i (_hi : i < ([(⟨0, sample_public_inputs⟩ :
              MergeAndPurgeTransitionProofWithPublicInputs Nat Nat),
              ⟨1, sample_public_inputs⟩, ⟨2, sample_public_inputs⟩]).length)
              (hj : i < ([some 5, none, some 6] : List (Option Nat)).length)
              (hl : i < l.length),
            l[i] = ⟨([(⟨0, sample_public_inputs⟩ :
                MergeAndPurgeTransitionProofWithPublicInputs Nat Nat),
                ⟨1, sample_public_inputs⟩,
                ⟨2, sample_public_inputs⟩])[i].public_inputs.sender_address,
              (([some 5, none, some 6] : List (Option Nat))[i]).isSome⟩) :=
  ⟨by decide, by decide,
    make_address_list_truncates
      [⟨0, sample_public_inputs⟩, ⟨1, sample_public_inputs⟩,
        ⟨2, sample_public_inputs⟩]
      [some 5, none, some 6] 2 (by decide) (by decide)⟩

/-- C9 counterexample: calling `ProposalBlockProofTarget::set_witness`
with zero real process proofs does fail loudly, but a witness value —
the old world-state root, assigned on the function's first line — has
already been assigned before the failing emptiness assertion, refuting
"no witness values assigned before the failing check". -/
theorem proposal_set_witness_assigns_before_check :
    (ProposalBlockProofTarget.set_witness (F := Nat) (P := Unit) 2 [] []
        ⟨0, 0, 0, 0⟩).2 = false ∧
      (ProposalBlockProofTarget.set_witness (F := Nat) (P := Unit) 2 [] []
        ⟨0, 0, 0, 0⟩).1 ≠ [] := by
  constructor
  · rfl
  · decide

/-- C9 (amended): `ProposalBlockProofTarget::set_witness` called with
zero real process proofs, zero real transaction proofs, or with more
real process or transaction proofs than `N_TXS`, fails immediately and
loudly (the corresponding `assert!` fires before any further witness
assignment) — but the old world-state root is assigned before the
process-proof checks (and the process-proof witnesses before the
transaction-proof checks), so the failure is not prior to all witness
assignment: the trace up to the failure always starts with the
old-world-state-root assignment. -/
theorem proposal_set_witness_rejects_bad_counts {F P : Type} [Zero F]
    (n_txs : Nat) (ws : List (SmtProcessProof F)) (txs : List P)
    (old : HashOut F)
    (hbad : ws = [] ∨ n_txs < ws.length ∨ txs = [] ∨ n_txs < txs.length) :
    (ProposalBlockProofTarget.set_witness n_txs ws txs old).2 = false ∧
      (ProposalBlockProofTarget.set_witness n_txs ws txs old).1.head? =
        some (ProposalWitnessAction.set_old_world_state_root old) := by
  rcases ws with _ | ⟨w, ws⟩
  · simp [ProposalBlockProofTarget.set_witness]
  · rcases Nat.lt_or_ge n_txs (w :: ws).length with hlt | hge
    · have hlt' : n_txs < ws.length + 1 := by simpa using hlt
      simp [ProposalBlockProofTarget.set_witness, hlt']
    · have hge' : ¬(n_txs < ws.length + 1) := by
        simp only [List.length_cons] at hge
        omega
      have hbad2 : txs = [] ∨ n_txs < txs.length := by
        rcases hbad with h | h | h | h
        · simp at h
        · simp only [List.length_cons] at h
          omega
        · exact Or.inl h
        · exact Or.inr h
      rcases txs with _ | ⟨t, ts⟩
      · simp [ProposalBlockProofTarget.set_witness, hge']
      · rcases hbad2 with h | h
        · simp at h
        · have h' : n_txs < ts.length + 1 := by simpa using h
          simp [ProposalBlockProofTarget.set_witness, hge', h']

/-- Witness for the amended C9 at a concrete call with zero process
proofs (capacity 2, one transaction proof). -/
theorem proposal_set_witness_rejects_bad_counts_witness :
    (([] : List (SmtProcessProof Nat)) = [] ∨
        2 < ([] : List (SmtProcessProof Nat)).length ∨
        ([()] : List Unit) = [] ∨ 2 < ([()] : List Unit).length) ∧
      ((ProposalBlockProofTarget.set_witness 2 ([] : List (SmtProcessProof Nat))
          ([()] : List Unit) ⟨0, 0, 0, 0⟩).2 = false ∧
        (ProposalBlockProofTarget.set_witness 2 ([] : List (SmtProcessProof Nat))
          ([()] : List Unit) ⟨0, 0, 0, 0⟩).1.head? =
          some (ProposalWitnessAction.set_old_world_state_root ⟨0, 0, 0, 0⟩)) :=
  ⟨Or.inl rfl,
    proposal_set_witness_rejects_bad_counts 2 [] [()] ⟨0, 0, 0, 0⟩ (Or.inl rfl)⟩

end IntmaxZkpCore
